import Mathlib

/-!
Verification development for the FreeIPA IDP sync tool
(`files/freeipa_idpsync.py`).

Python dictionaries (`Dict[str, User]`, `Dict[str, Group]`, a group's
`members : Dict[str, None]`) are modelled as association lists that keep
insertion order; Python 3.7+ dict insertion either replaces the value of an
existing key in place or appends a fresh key at the end, which `dictInsert`
mirrors.  Python dict equality on `Dict[str, None]` (used for group member
comparison) is key-set equality, modelled by `membersEq` as mutual
containment.  Console output is modelled as a list of printed lines and the
mutating FreeIPA client calls as a list of `MutCall` values, so that dry-run
behaviour and call ordering are observable.  Fallible code (Python `raise`)
is modelled with `Except String`.
-/

namespace Idpsync

/-- A Python `dict` keyed by strings, in insertion order. -/
abbrev Dict (α : Type) := List (String × α)

/-- Key lookup in a Python dict (`d.get(k)` / `d[k]`): first matching key. -/
def dictLookup {α : Type} : Dict α → String → Option α
  | [], _ => none
  | (k, v) :: rest, key => if k = key then some v else dictLookup rest key

/-- Python `k in d` on a dict: key membership. -/
def dictContains {α : Type} (d : Dict α) (k : String) : Bool :=
  (dictLookup d k).isSome

/-- Python `d.values()`, in insertion order. -/
def dictValues {α : Type} (d : Dict α) : List α := d.map Prod.snd

/-- Python `list(d.keys())`, in insertion order. -/
def dictKeys {α : Type} (d : Dict α) : List String := d.map Prod.fst

/-- Python `d[k] = v`: replace in place when the key exists, else append. -/
def dictInsert {α : Type} : Dict α → String → α → Dict α
  | [], k, v => [(k, v)]
  | (k', v') :: rest, k, v =>
      if k' = k then (k', v) :: rest else (k', v') :: dictInsert rest k v

/-- `class User`: all user attributes the tool cares about. -/
structure User where
  username : String
  name : String
  fname : String
  lname : String
  shell : Option String
  uid : Option String
  active : Bool
  email : Option String
  auth_type : String
  idp_name : String
  idp_username : String
deriving DecidableEq, Repr

/-- `class Group`: group attributes; `members` are the keys of the Python
`Dict[str, None]`, in insertion order. -/
structure Group where
  name : String
  description : Option String
  members : List String
deriving DecidableEq, Repr

/-- Python `==` on two `Dict[str, None]` member dicts: key-set equality
(keys of a dict are unique, so mutual containment). -/
def membersEq (a b : List String) : Bool :=
  a.all (fun m => decide (m ∈ b)) && b.all (fun m => decide (m ∈ a))

/-- `users_not_in(list1, list2)`: users of `list1` whose username is not a
key of `list2`. -/
def users_not_in (list1 list2 : Dict User) : List User :=
  (dictValues list1).filter (fun user => ! dictContains list2 user.username)

/-- `groups_not_in(list1, list2)`: groups of `list1` whose name is not a
key of `list2`. -/
def groups_not_in (list1 list2 : Dict Group) : List Group :=
  (dictValues list1).filter (fun group => ! dictContains list2 group.name)

/-- `user_match(idp_user, freeipa_user)`: the chain of early-return field
comparisons; `email`, `uid` and `shell` are only compared when the IDP side
is not `None`. -/
def user_match (idp_user freeipa_user : User) : Bool :=
  if idp_user.fname ≠ freeipa_user.fname then false
  else if idp_user.lname ≠ freeipa_user.lname then false
  else if idp_user.name ≠ freeipa_user.name then false
  else if idp_user.email ≠ none ∧ idp_user.email ≠ freeipa_user.email then false
  else if idp_user.active ≠ freeipa_user.active then false
  else if idp_user.auth_type ≠ freeipa_user.auth_type then false
  else if idp_user.idp_name ≠ freeipa_user.idp_name then false
  else if idp_user.idp_username ≠ freeipa_user.idp_username then false
  else if idp_user.uid ≠ none ∧ idp_user.uid ≠ freeipa_user.uid then false
  else if idp_user.shell ≠ none ∧ idp_user.shell ≠ freeipa_user.shell then false
  else true

/-- `modified_users`: IDP users also present in FreeIPA whose data does not
match; the emitted value is the IDP (desired) user. -/
def modified_users (idp_users freeipa_users : Dict User) : List User :=
  (dictValues idp_users).filterMap (fun idp_user =>
    match dictLookup freeipa_users idp_user.username with
    | none => none
    | some freeipa_user =>
        if user_match idp_user freeipa_user then none else some idp_user)

/-- `group_match(idp_group, freeipa_group)`: description equality and member
dict equality. -/
def group_match (idp_group freeipa_group : Group) : Bool :=
  if idp_group.description ≠ freeipa_group.description then false
  else if ! membersEq idp_group.members freeipa_group.members then false
  else true

/-- `modified_groups`: IDP groups also present in FreeIPA whose data does
not match; the emitted value is the IDP (desired) group. -/
def modified_groups (idp_groups freeipa_groups : Dict Group) : List Group :=
  (dictValues idp_groups).filterMap (fun idp_group =>
    match dictLookup freeipa_groups idp_group.name with
    | none => none
    | some freeipa_group =>
        if group_match idp_group freeipa_group then none else some idp_group)

/-- One mutating call on the FreeIPA client. -/
inductive MutCall where
  | user_add (user : User)
  | user_mod (user : User)
  | user_del (uid : String) (preserve : Bool)
  | group_add (cn : String) (description : Option String)
  | group_add_member (cn : String) (user : String)
  | group_remove_member (cn : String) (user : String)
  | group_mod (cn : String) (description : Option String)
  | group_del (cn : String)
deriving DecidableEq, Repr

/-- `freeipa_user_add`: print the action, then (unless dry-run) call
`client.user_add`.  Result: (printed lines, mutating calls). -/
def freeipa_user_add (user : User) (dry_run : Bool) :
    List String × List MutCall :=
  (["   * Adding User " ++ user.username],
   if dry_run then [] else [MutCall.user_add user])

/-- `freeipa_user_mod`: print the action, then (unless dry-run) call
`client.user_mod`. -/
def freeipa_user_mod (user : User) (dry_run : Bool) :
    List String × List MutCall :=
  (["   * Updating User " ++ user.username],
   if dry_run then [] else [MutCall.user_mod user])

/-- `freeipa_user_del`: print the action, then (unless dry-run) call
`client.user_del` with `o_preserve=False`. -/
def freeipa_user_del (user : User) (dry_run : Bool) :
    List String × List MutCall :=
  (["   * Deleting User " ++ user.username],
   if dry_run then [] else [MutCall.user_del user.username false])

/-- `freeipa_group_add`: print, call `client.group_add` unless dry-run, then
report and (unless dry-run) add every member. -/
def freeipa_group_add (group : Group) (dry_run : Bool) :
    List String × List MutCall :=
  (["   * Adding Group " ++ group.name] ++
     (if group.members.length ≠ 0 then
        ("     * Adding " ++ toString group.members.length ++ " members") ::
          group.members.map (fun member => "       * Adding member " ++ member)
      else []),
   (if dry_run then [] else [MutCall.group_add group.name group.description]) ++
     (if dry_run then []
      else group.members.map (fun member =>
        MutCall.group_add_member group.name member)))

/-- `freeipa_group_del`: print, then call `client.group_del` unless dry-run. -/
def freeipa_group_del (group : Group) (dry_run : Bool) :
    List String × List MutCall :=
  (["   * Deleting Group " ++ group.name],
   if dry_run then [] else [MutCall.group_del group.name])

/-- `freeipa_group_mod`: print, issue `client.group_mod` only when the
description changed (and not dry-run); when the member dicts differ, add the
members only in the IDP group and remove the members only in the FreeIPA
group, skipping removals of members unknown to `idp_users` (deleted users,
whose memberships are auto-removed). -/
def freeipa_group_mod (idpgroup freeipagroup : Group) (idp_users : Dict User)
    (dry_run : Bool) : List String × List MutCall :=
  let descCalls : List MutCall :=
    if dry_run then []
    else if idpgroup.description ≠ freeipagroup.description then
      [MutCall.group_mod idpgroup.name idpgroup.description]
    else []
  let memPart : List String × List MutCall :=
    if membersEq idpgroup.members freeipagroup.members then ([], [])
    else
      let toAdd := idpgroup.members.filter
        (fun member => decide (member ∉ freeipagroup.members))
      let toRemove := freeipagroup.members.filter
        (fun member => decide (member ∉ idpgroup.members) &&
           dictContains idp_users member)
      (toAdd.map (fun member => "     * Adding member " ++ member) ++
         toRemove.map (fun member => "     * Removing member " ++ member),
       if dry_run then []
       else
         toAdd.map (fun member => MutCall.group_add_member idpgroup.name member) ++
           toRemove.map (fun member =>
             MutCall.group_remove_member idpgroup.name member))
  (["   * Updating Group " ++ idpgroup.name] ++ memPart.1,
   descCalls ++ memPart.2)

/-- The usernames removed from a group by a call list. -/
def removedMembers : List MutCall → List String
  | [] => []
  | MutCall.group_remove_member _ user :: rest => user :: removedMembers rest
  | _ :: rest => removedMembers rest

/-- The usernames added to a group by a call list. -/
def addedMembers : List MutCall → List String
  | [] => []
  | MutCall.group_add_member _ user :: rest => user :: addedMembers rest
  | _ :: rest => addedMembers rest

/-- Concatenate the printed output of a list of (output, calls) pairs. -/
def joinOut : List (List String × List MutCall) → List String
  | [] => []
  | p :: rest => p.1 ++ joinOut rest

/-- Concatenate the mutating calls of a list of (output, calls) pairs. -/
def joinCalls : List (List String × List MutCall) → List MutCall
  | [] => []
  | p :: rest => p.2 ++ joinCalls rest

/-- Flatten a list of call lists in order. -/
def joinList : List (List MutCall) → List MutCall
  | [] => []
  | c :: rest => c ++ joinList rest

/-- One phase of `sync`: when the action list is non-empty, print the count
header and run every action in order. -/
def syncPhase (header : String) (ps : List (List String × List MutCall)) :
    List String × List MutCall :=
  if ps.length ≠ 0 then (header :: joinOut ps, joinCalls ps) else ([], [])

/-- Map a fallible function over a list, stopping at the first error
(Python: an uncaught exception aborts the loop). -/
def mapExcept {α β : Type} (f : α → Except String β) :
    List α → Except String (List β)
  | [] => Except.ok []
  | a :: rest =>
    match f a with
    | Except.error e => Except.error e
    | Except.ok b =>
      match mapExcept f rest with
      | Except.error e => Except.error e
      | Except.ok bs => Except.ok (b :: bs)

/-- The reconciliation and apply portion of `sync` (after both snapshots are
fetched): the six diff phases in source order, each printing its count and
applying its actions.  The group-update phase looks the current group up
with `freeipa_groups[group.name]`, whose Python `KeyError` is modelled as an
`Except.error`. -/
def sync (idp_users freeipa_users : Dict User)
    (idp_groups freeipa_groups : Dict Group) (dry_run : Bool) :
    Except String (List String × List MutCall) :=
  let new_users := users_not_in idp_users freeipa_users
  let p1 := syncPhase (" * Adding " ++ toString new_users.length ++ " new users")
    (new_users.map (fun user => freeipa_user_add user dry_run))
  let deleted_users := users_not_in freeipa_users idp_users
  let p2 := syncPhase (" * Deleting " ++ toString deleted_users.length ++ " users")
    (deleted_users.map (fun user => freeipa_user_del user dry_run))
  let new_groups := groups_not_in idp_groups freeipa_groups
  let p3 := syncPhase (" * Adding " ++ toString new_groups.length ++ " new groups")
    (new_groups.map (fun group => freeipa_group_add group dry_run))
  let deleted_groups := groups_not_in freeipa_groups idp_groups
  let p4 := syncPhase (" * Deleting " ++ toString deleted_groups.length ++ " groups")
    (deleted_groups.map (fun group => freeipa_group_del group dry_run))
  let updated_users := modified_users idp_users freeipa_users
  let p5 := syncPhase ("  * Updating " ++ toString updated_users.length ++ " users")
    (updated_users.map (fun user => freeipa_user_mod user dry_run))
  let updated_groups := modified_groups idp_groups freeipa_groups
  match mapExcept (fun group =>
      match dictLookup freeipa_groups group.name with
      | some freeipagroup =>
          Except.ok (freeipa_group_mod group freeipagroup idp_users dry_run)
      | none => Except.error ("KeyError: " ++ group.name)) updated_groups with
  | Except.error e => Except.error e
  | Except.ok ps6 =>
    let p6 := syncPhase ("  * Updating " ++ toString updated_groups.length ++ " groups") ps6
    Except.ok ((if dry_run then ["== DRY RUN =="] else []) ++
        p1.1 ++ p2.1 ++ p3.1 ++ p4.1 ++ p5.1 ++ p6.1 ++ ["Sync Complete"],
      p1.2 ++ p2.2 ++ p3.2 ++ p4.2 ++ p5.2 ++ p6.2)

/-- The six action lists the diff engine produces, in the order `sync`
computes them. -/
structure DiffResult where
  usersToAdd : List User
  usersToDelete : List User
  groupsToAdd : List Group
  groupsToDelete : List Group
  usersToModify : List User
  groupsToModify : List Group
deriving DecidableEq, Repr

/-- The pure diff engine: the six action lists `sync` computes. -/
def diff (idp_users freeipa_users : Dict User)
    (idp_groups freeipa_groups : Dict Group) : DiffResult :=
  ⟨users_not_in idp_users freeipa_users,
   users_not_in freeipa_users idp_users,
   groups_not_in idp_groups freeipa_groups,
   groups_not_in freeipa_groups idp_groups,
   modified_users idp_users freeipa_users,
   modified_groups idp_groups freeipa_groups⟩

/-- The mutating calls of the user-add phase of a real (non dry-run) run. -/
def userAddCalls (idp_users freeipa_users : Dict User) : List MutCall :=
  (users_not_in idp_users freeipa_users).map MutCall.user_add

/-- The mutating calls of the user-delete phase of a real run. -/
def userDelCalls (freeipa_users idp_users : Dict User) : List MutCall :=
  (users_not_in freeipa_users idp_users).map
    (fun user => MutCall.user_del user.username false)

/-- The mutating calls of the group-add phase of a real run: each new group
is created and then every one of its members added. -/
def groupAddCalls (idp_groups freeipa_groups : Dict Group) : List MutCall :=
  joinList ((groups_not_in idp_groups freeipa_groups).map (fun group =>
    MutCall.group_add group.name group.description ::
      group.members.map (fun member =>
        MutCall.group_add_member group.name member)))

/-- The mutating calls of the group-delete phase of a real run. -/
def groupDelCalls (freeipa_groups idp_groups : Dict Group) : List MutCall :=
  (groups_not_in freeipa_groups idp_groups).map
    (fun group => MutCall.group_del group.name)

/-- The mutating calls of the user-update phase of a real run. -/
def userModCalls (idp_users freeipa_users : Dict User) : List MutCall :=
  (modified_users idp_users freeipa_users).map MutCall.user_mod

/-- The mutating calls of the group-update phase of a real run. -/
def groupModCalls (idp_groups freeipa_groups : Dict Group)
    (idp_users : Dict User) : List MutCall :=
  joinList ((modified_groups idp_groups freeipa_groups).map (fun group =>
    match dictLookup freeipa_groups group.name with
    | some freeipagroup => (freeipa_group_mod group freeipagroup idp_users false).2
    | none => []))

/-- Split a character list on a separator character; mirrors Python
`str.split(sep)` with a one-character separator (never returns an empty
list, `"".split(sep) == [""]`). -/
def splitChar (c : Char) : List Char → List (List Char)
  | [] => [[]]
  | x :: xs =>
    match splitChar c xs with
    | [] => if x = c then [[], []] else [[x]]
    | y :: ys => if x = c then [] :: y :: ys else (x :: y) :: ys

/-- Python `s.split(c)` for a one-character separator. -/
def pySplit (s : String) (c : Char) : List String :=
  (splitChar c s.data).map (fun l => String.mk l)

/-- One LDAP result row: `row["raw_attributes"]`, an attribute name mapped
to a list of (already decoded) string values. -/
abbrev Attrs := Dict (List String)

/-- `fetch_string(values, name)`: `None` when the attribute name is absent
from the configuration, empty, missing from the row, or its value is falsy
(an empty list); otherwise the first value of the list. -/
def fetch_string (values : Attrs) (name : Option String) : Option String :=
  match name with
  | none => none
  | some n =>
    if n.length = 0 then none
    else
      match dictLookup values n with
      | none => none
      | some [] => none
      | some (v :: _) => some v

/-- `fetch_required_string`: like `fetch_string` but an absent value raises. -/
def fetch_required_string (values : Attrs) (name : String) :
    Except String String :=
  if name.length = 0 then
    Except.error "name must have length greater than 0"
  else
    match fetch_string values (some name) with
    | none => Except.error (name ++ " does not exist")
    | some v => Except.ok v

/-- The configuration fields `fetch_ldap` reads; `attr_email`, `attr_uid`,
`attr_shell` and `attr_group_description` are fetched with `.get` and may be
absent. -/
structure LdapConfig where
  attr_username : String
  attr_fname : String
  attr_lname : String
  attr_name : String
  attr_email : Option String
  attr_uid : Option String
  attr_shell : Option String
  attr_active : String
  attr_group_members : String
  attr_group_name : String
  attr_group_description : Option String
  ignore_users : List String
  ignore_groups : List String
  active_values : List String
  idp_name : String
deriving Repr

/-- One iteration of the `fetch_ldap` user loop body, up to the duplicate
check: skip rows with no / ignored username, strip an email-style suffix
from the username, and build the `User` (raising when a required attribute
is missing). -/
def ldap_row_user (cfg : LdapConfig) (attr : Attrs) :
    Except String (Option User) :=
  match fetch_string attr (some cfg.attr_username) with
  | none => Except.ok none
  | some idp_username =>
    if idp_username ∈ cfg.ignore_users then Except.ok none
    else
      let username := (pySplit idp_username '@').headD ""
      match fetch_required_string attr cfg.attr_fname with
      | Except.error e => Except.error e
      | Except.ok fname =>
      match fetch_required_string attr cfg.attr_lname with
      | Except.error e => Except.error e
      | Except.ok lname =>
      match fetch_required_string attr cfg.attr_name with
      | Except.error e => Except.error e
      | Except.ok name =>
      match fetch_required_string attr cfg.attr_active with
      | Except.error e => Except.error e
      | Except.ok active_val =>
        Except.ok (some
          { username := username
            name := name
            fname := fname
            lname := lname
            shell := fetch_string attr cfg.attr_shell
            uid := fetch_string attr cfg.attr_uid
            active := decide (active_val ∈ cfg.active_values)
            email := fetch_string attr cfg.attr_email
            auth_type := "idp"
            idp_name := cfg.idp_name
            idp_username := idp_username })

/-- The `fetch_ldap` user loop: build users row by row, raising on a
duplicate username. -/
def ldap_users_loop (cfg : LdapConfig) :
    List Attrs → Dict User → Except String (Dict User)
  | [], users => Except.ok users
  | attr :: rest, users =>
    match ldap_row_user cfg attr with
    | Except.error e => Except.error e
    | Except.ok none => ldap_users_loop cfg rest users
    | Except.ok (some user) =>
      if dictContains users user.username then
        Except.error ("Duplicate user " ++ user.username)
      else ldap_users_loop cfg rest (dictInsert users user.username user)

/-- Parse one raw group-member value: take the first RDN (`split(",")[0]`),
take its attribute value (`split("=")[1]`, a Python `IndexError` when there
is no `=`), drop ignored users, strip an email-style suffix, and drop stale
references to usernames not in `users`. -/
def ldap_parse_member (cfg : LdapConfig) (users : Dict User) (member : String) :
    Except String (Option String) :=
  let rdn := (pySplit member ',').headD ""
  match (pySplit rdn '=').get? 1 with
  | none => Except.error "IndexError: list index out of range"
  | some value =>
    if value ∈ cfg.ignore_users then Except.ok none
    else
      let username := (pySplit value '@').headD ""
      if dictContains users username then Except.ok (some username)
      else Except.ok none

/-- The member loop of one group row: parsed members are collected as keys
of a Python dict (`members[member] = None`), so duplicates collapse. -/
def ldap_members_loop (cfg : LdapConfig) (users : Dict User) :
    List String → List String → Except String (List String)
  | [], acc => Except.ok acc
  | m :: rest, acc =>
    match ldap_parse_member cfg users m with
    | Except.error e => Except.error e
    | Except.ok none => ldap_members_loop cfg users rest acc
    | Except.ok (some username) =>
      ldap_members_loop cfg users rest
        (if username ∈ acc then acc else acc ++ [username])

/-- One iteration of the `fetch_ldap` group loop body, after the
`uniqueIdentifier` check: collect the members, build the `Group` (raising
when the name attribute is missing), and skip ignored group names. -/
def ldap_row_group (cfg : LdapConfig) (users : Dict User) (attr : Attrs) :
    Except String (Option Group) :=
  let raw := match dictLookup attr cfg.attr_group_members with
    | some l => l
    | none => []
  match (if raw.isEmpty then Except.ok [] else ldap_members_loop cfg users raw []) with
  | Except.error e => Except.error e
  | Except.ok members =>
    match fetch_required_string attr cfg.attr_group_name with
    | Except.error e => Except.error e
    | Except.ok name =>
      if name ∈ cfg.ignore_groups then Except.ok none
      else Except.ok (some
        { name := name
          description := fetch_string attr cfg.attr_group_description
          members := members })

/-- The `fetch_ldap` group loop: rows without a truthy `uniqueIdentifier`
attribute are skipped; a group whose name repeats an earlier one silently
replaces it in the dict. -/
def ldap_groups_loop (cfg : LdapConfig) (users : Dict User) :
    List Attrs → Dict Group → Except String (Dict Group)
  | [], groups => Except.ok groups
  | attr :: rest, groups =>
    if (match dictLookup attr "uniqueIdentifier" with
        | none => true
        | some l => l.isEmpty) then
      ldap_groups_loop cfg users rest groups
    else
      match ldap_row_group cfg users attr with
      | Except.error e => Except.error e
      | Except.ok none => ldap_groups_loop cfg users rest groups
      | Except.ok (some group) =>
        ldap_groups_loop cfg users rest (dictInsert groups group.name group)

/-- `fetch_ldap`, given the rows the two LDAP searches returned: the user
loop, then the group loop over the completed user dict. -/
def fetch_ldap (cfg : LdapConfig) (user_rows group_rows : List Attrs) :
    Except String (Dict User × Dict Group) :=
  match ldap_users_loop cfg user_rows [] with
  | Except.error e => Except.error e
  | Except.ok users =>
    match ldap_groups_loop cfg users group_rows [] with
    | Except.error e => Except.error e
    | Except.ok groups => Except.ok (users, groups)

/-- Key consistency and key uniqueness of a user dict, as the loaders
establish them (`users[user.username] = user`). -/
def userDictOk (d : Dict User) : Prop :=
  (∀ p ∈ d, (Prod.snd p).username = Prod.fst p) ∧ (dictKeys d).Nodup

/-- Key consistency and key uniqueness of a group dict, as the loaders
establish them (`groups[group.name] = group`). -/
def groupDictOk (d : Dict Group) : Prop :=
  (∀ p ∈ d, (Prod.snd p).name = Prod.fst p) ∧ (dictKeys d).Nodup

theorem dictLookup_eq_some_mem {α : Type} {d : Dict α} {k : String} {v : α}
    (h : dictLookup d k = some v) : (k, v) ∈ d := by
  induction d with
  | nil => simp [dictLookup] at h
  | cons p rest ih =>
    obtain ⟨k', v'⟩ := p
    by_cases hk : k' = k
    · subst hk
      simp [dictLookup] at h
      simp [h]
    · simp [dictLookup, hk] at h
      exact List.mem_cons_of_mem _ (ih h)

theorem dictContains_iff {α : Type} {d : Dict α} {k : String} :
    dictContains d k = true ↔ ∃ v, (k, v) ∈ d := by
  induction d with
  | nil => simp [dictContains, dictLookup]
  | cons p rest ih =>
    obtain ⟨k', v'⟩ := p
    by_cases hk : k' = k
    · subst hk
      simp [dictContains, dictLookup]
    · simp [dictContains, dictLookup, hk] at ih ⊢
      rw [ih]
      constructor
      · rintro ⟨v, hv⟩
        exact ⟨v, Or.inr hv⟩
      · rintro ⟨v, hv | hv⟩
        · exact absurd hv.1.symm hk
        · exact ⟨v, hv⟩

theorem mem_dictValues {α : Type} {d : Dict α} {v : α} :
    v ∈ dictValues d ↔ ∃ k, (k, v) ∈ d := by
  constructor
  · intro h
    obtain ⟨p, hp, hpv⟩ := List.mem_map.mp h
    exact ⟨p.1, by rw [← hpv]; exact hp⟩
  · rintro ⟨k, hk⟩
    exact List.mem_map.mpr ⟨(k, v), hk, rfl⟩

theorem dictContains_eq_false_iff {α : Type} {d : Dict α} {k : String} :
    dictContains d k = false ↔ k ∉ dictKeys d := by
  rw [← Bool.not_eq_true, not_iff_not, dictContains_iff, dictKeys]
  simp only [List.mem_map, Prod.exists]
  constructor
  · rintro ⟨v, hv⟩
    exact ⟨k, v, hv, rfl⟩
  · rintro ⟨k', v, hm, rfl⟩
    exact ⟨v, hm⟩

theorem dictLookup_of_mem_nodup {α : Type} {d : Dict α} {k : String} {v : α}
    (hnd : (dictKeys d).Nodup) (h : (k, v) ∈ d) : dictLookup d k = some v := by
  induction d with
  | nil => simp at h
  | cons p rest ih =>
    obtain ⟨k', v'⟩ := p
    simp only [dictKeys, List.map_cons, List.nodup_cons] at hnd
    rcases List.mem_cons.mp h with heq | hmem
    · have h1 : k = k' := congrArg Prod.fst heq
      have h2 : v = v' := congrArg Prod.snd heq
      subst h1
      subst h2
      simp [dictLookup]
    · have hk : k' ≠ k := by
        intro hkk
        subst hkk
        exact hnd.1 (List.mem_map.mpr ⟨(k', v), hmem, rfl⟩)
      simp only [dictLookup, hk, if_false]
      exact ih hnd.2 hmem

/-- Claim C4: user equality is directional with pass-through optional
fields: `email`, `uid` (numericId) and `shell` are only required to agree
when the desired (IDP) side is non-null, while the remaining fields are
always compared exactly. -/
theorem c4_user_match_directional (idp_user freeipa_user : User) :
    user_match idp_user freeipa_user = true ↔
      (idp_user.fname = freeipa_user.fname ∧
       idp_user.lname = freeipa_user.lname ∧
       idp_user.name = freeipa_user.name ∧
       (idp_user.email = none ∨ idp_user.email = freeipa_user.email) ∧
       idp_user.active = freeipa_user.active ∧
       idp_user.auth_type = freeipa_user.auth_type ∧
       idp_user.idp_name = freeipa_user.idp_name ∧
       idp_user.idp_username = freeipa_user.idp_username ∧
       (idp_user.uid = none ∨ idp_user.uid = freeipa_user.uid) ∧
       (idp_user.shell = none ∨ idp_user.shell = freeipa_user.shell)) := by
  constructor
  · intro h
    unfold user_match at h
    by_cases h1 : idp_user.fname ≠ freeipa_user.fname
    · rw [if_pos h1] at h; exact (Bool.false_ne_true h).elim
    rw [if_neg h1] at h
    by_cases h2 : idp_user.lname ≠ freeipa_user.lname
    · rw [if_pos h2] at h; exact (Bool.false_ne_true h).elim
    rw [if_neg h2] at h
    by_cases h3 : idp_user.name ≠ freeipa_user.name
    · rw [if_pos h3] at h; exact (Bool.false_ne_true h).elim
    rw [if_neg h3] at h
    by_cases h4 : idp_user.email ≠ none ∧ idp_user.email ≠ freeipa_user.email
    · rw [if_pos h4] at h; exact (Bool.false_ne_true h).elim
    rw [if_neg h4] at h
    by_cases h5 : idp_user.active ≠ freeipa_user.active
    · rw [if_pos h5] at h; exact (Bool.false_ne_true h).elim
    rw [if_neg h5] at h
    by_cases h6 : idp_user.auth_type ≠ freeipa_user.auth_type
    · rw [if_pos h6] at h; exact (Bool.false_ne_true h).elim
    rw [if_neg h6] at h
    by_cases h7 : idp_user.idp_name ≠ freeipa_user.idp_name
    · rw [if_pos h7] at h; exact (Bool.false_ne_true h).elim
    rw [if_neg h7] at h
    by_cases h8 : idp_user.idp_username ≠ freeipa_user.idp_username
    · rw [if_pos h8] at h; exact (Bool.false_ne_true h).elim
    rw [if_neg h8] at h
    by_cases h9 : idp_user.uid ≠ none ∧ idp_user.uid ≠ freeipa_user.uid
    · rw [if_pos h9] at h; exact (Bool.false_ne_true h).elim
    rw [if_neg h9] at h
    by_cases h10 : idp_user.shell ≠ none ∧ idp_user.shell ≠ freeipa_user.shell
    · rw [if_pos h10] at h; exact (Bool.false_ne_true h).elim
    exact ⟨not_not.mp h1, not_not.mp h2, not_not.mp h3,
      (not_and_or.mp h4).imp not_not.mp not_not.mp,
      not_not.mp h5, not_not.mp h6, not_not.mp h7, not_not.mp h8,
      (not_and_or.mp h9).imp not_not.mp not_not.mp,
      (not_and_or.mp h10).imp not_not.mp not_not.mp⟩
  · rintro ⟨c1, c2, c3, c4, c5, c6, c7, c8, c9, c10⟩
    unfold user_match
    rw [if_neg (not_not.mpr c1), if_neg (not_not.mpr c2), if_neg (not_not.mpr c3),
      if_neg (fun hc => c4.elim (fun h0 => hc.1 h0) (fun h0 => hc.2 h0)),
      if_neg (not_not.mpr c5), if_neg (not_not.mpr c6), if_neg (not_not.mpr c7),
      if_neg (not_not.mpr c8),
      if_neg (fun hc => c9.elim (fun h0 => hc.1 h0) (fun h0 => hc.2 h0)),
      if_neg (fun hc => c10.elim (fun h0 => hc.1 h0) (fun h0 => hc.2 h0))]

/-- Claim C9: in dry-run mode every apply function performs zero mutating
client calls while printing exactly the lines a real run would print. -/
theorem c9_dry_run (user : User) (group idpgroup freeipagroup : Group)
    (idp_users : Dict User) :
    ((freeipa_user_add user true).2 = [] ∧
      (freeipa_user_add user true).1 = (freeipa_user_add user false).1) ∧
    ((freeipa_user_del user true).2 = [] ∧
      (freeipa_user_del user true).1 = (freeipa_user_del user false).1) ∧
    ((freeipa_user_mod user true).2 = [] ∧
      (freeipa_user_mod user true).1 = (freeipa_user_mod user false).1) ∧
    ((freeipa_group_add group true).2 = [] ∧
      (freeipa_group_add group true).1 = (freeipa_group_add group false).1) ∧
    ((freeipa_group_del group true).2 = [] ∧
      (freeipa_group_del group true).1 = (freeipa_group_del group false).1) ∧
    ((freeipa_group_mod idpgroup freeipagroup idp_users true).2 = [] ∧
      (freeipa_group_mod idpgroup freeipagroup idp_users true).1 =
        (freeipa_group_mod idpgroup freeipagroup idp_users false).1) := by
  refine ⟨⟨rfl, rfl⟩, ⟨rfl, rfl⟩, ⟨rfl, rfl⟩, ⟨rfl, rfl⟩, ⟨rfl, rfl⟩, ?_, ?_⟩ <;>
    by_cases h : membersEq idpgroup.members freeipagroup.members <;>
      simp [freeipa_group_mod, h]

theorem removedMembers_append (a b : List MutCall) :
    removedMembers (a ++ b) = removedMembers a ++ removedMembers b := by
  induction a with
  | nil => rfl
  | cons c rest ih => cases c <;> simp [removedMembers, ih]

theorem addedMembers_append (a b : List MutCall) :
    addedMembers (a ++ b) = addedMembers a ++ addedMembers b := by
  induction a with
  | nil => rfl
  | cons c rest ih => cases c <;> simp [addedMembers, ih]

theorem removedMembers_map_add (n : String) (l : List String) :
    removedMembers (l.map (fun m => MutCall.group_add_member n m)) = [] := by
  induction l with
  | nil => rfl
  | cons a rest ih => simp [removedMembers, ih]

theorem removedMembers_map_remove (n : String) (l : List String) :
    removedMembers (l.map (fun m => MutCall.group_remove_member n m)) = l := by
  induction l with
  | nil => rfl
  | cons a rest ih => simp [removedMembers, ih]

theorem addedMembers_map_add (n : String) (l : List String) :
    addedMembers (l.map (fun m => MutCall.group_add_member n m)) = l := by
  induction l with
  | nil => rfl
  | cons a rest ih => simp [addedMembers, ih]

theorem addedMembers_map_remove (n : String) (l : List String) :
    addedMembers (l.map (fun m => MutCall.group_remove_member n m)) = [] := by
  induction l with
  | nil => rfl
  | cons a rest ih => simp [addedMembers, ih]

theorem removedMembers_nil : removedMembers [] = [] := rfl

theorem addedMembers_nil : addedMembers [] = [] := rfl

theorem removedMembers_group_mod_single (n : String) (d : Option String) :
    removedMembers [MutCall.group_mod n d] = [] := rfl

theorem addedMembers_group_mod_single (n : String) (d : Option String) :
    addedMembers [MutCall.group_mod n d] = [] := rfl

theorem removedMembers_group_mod (idpgroup freeipagroup : Group)
    (idp_users : Dict User)
    (h : membersEq idpgroup.members freeipagroup.members = false) :
    removedMembers (freeipa_group_mod idpgroup freeipagroup idp_users false).2 =
      freeipagroup.members.filter (fun member =>
        decide (member ∉ idpgroup.members) && dictContains idp_users member) := by
  simp only [freeipa_group_mod, h, Bool.false_eq_true, if_false,
    removedMembers_append]
  split
  all_goals simp only [removedMembers_nil, removedMembers_group_mod_single,
    removedMembers_map_add, removedMembers_map_remove,
    List.nil_append, List.append_nil]

theorem addedMembers_group_mod (idpgroup freeipagroup : Group)
    (idp_users : Dict User)
    (h : membersEq idpgroup.members freeipagroup.members = false) :
    addedMembers (freeipa_group_mod idpgroup freeipagroup idp_users false).2 =
      idpgroup.members.filter (fun member =>
        decide (member ∉ freeipagroup.members)) := by
  simp only [freeipa_group_mod, h, Bool.false_eq_true, if_false,
    addedMembers_append]
  split
  all_goals simp only [addedMembers_nil, addedMembers_group_mod_single,
    addedMembers_map_add, addedMembers_map_remove,
    List.nil_append, List.append_nil]

/-- Claim C1: for a group present in both snapshots with unequal member
sets, the emitted removals are exactly the current members absent from the
desired members, excluding members whose username is not a key of the
desired user dict; such excluded members are never removed. -/
theorem c1_group_mod_removals (idpgroup freeipagroup : Group)
    (idp_users : Dict User)
    (h : membersEq idpgroup.members freeipagroup.members = false)
    (member : String) :
    member ∈ removedMembers
        (freeipa_group_mod idpgroup freeipagroup idp_users false).2 ↔
      (member ∈ freeipagroup.members ∧ member ∉ idpgroup.members ∧
        dictContains idp_users member = true) := by
  rw [removedMembers_group_mod _ _ _ h, List.mem_filter]
  simp [and_assoc]

/-- Witness for C1 at a concrete instance: desired members `["a"]`, current
members `["b", "c"]`, with only `b` a desired user: `b` is removed, and the
characterization confirms it. -/
theorem c1_group_mod_removals_witness :
    "b" ∈ removedMembers
        (freeipa_group_mod ⟨"g", none, ["a"]⟩ ⟨"g", none, ["b", "c"]⟩
          [("b", ⟨"b", "b", "b", "b", none, none, true, none, "idp", "i", "b"⟩)]
          false).2 ↔
      ("b" ∈ (⟨"g", none, ["b", "c"]⟩ : Group).members ∧
        "b" ∉ (⟨"g", none, ["a"]⟩ : Group).members ∧
        dictContains
          [("b", (⟨"b", "b", "b", "b", none, none, true, none, "idp", "i", "b"⟩ : User))]
          "b" = true) :=
  c1_group_mod_removals _ _ _ (by decide) "b"

/-- The desired-side group `eng` of the C2 counterexample: no members. -/
def gdEx : Group := ⟨"eng", none, []⟩

/-- The current-side group `eng` of the C2 counterexample: one member
`carol`, who is not a desired user. -/
def gcEx : Group := ⟨"eng", none, ["carol"]⟩

/-- The desired-side group dict of the C2 counterexample. -/
def igEx : Dict Group := [("eng", gdEx)]

/-- The current-side group dict of the C2 counterexample. -/
def fgEx : Dict Group := [("eng", gcEx)]

/-- Counterexample to claim C2: with `desired.members = {}`,
`current.members = {carol}` and `carol` absent from `desired.users`, the
group is in both snapshots and modified, yet the delta the code emits is
empty (`carol` is excluded from `toRemove`), so
`(current.members \ toRemove) ∪ toAdd = {carol} ≠ {} = desired.members`. -/
theorem c2_counterexample :
    membersEq
        (gcEx.members.filter (fun m =>
            decide (m ∉ removedMembers (groupModCalls igEx fgEx []))) ++
          addedMembers (groupModCalls igEx fgEx []))
        gdEx.members = false := rfl

/-- Claim C2 as amended: for a group present in both snapshots with unequal
member sets, applying the emitted delta converges the member set to the
desired members together with the current members whose username is not a
key of the desired user dict (those are left for user deletion to cascade):
`(current.members \ toRemove) ∪ toAdd =
desired.members ∪ (current.members \ keys desired.users)`. -/
theorem c2_membership_delta_amended (idpgroup freeipagroup : Group)
    (idp_users : Dict User)
    (h : membersEq idpgroup.members freeipagroup.members = false)
    (member : String) :
    (member ∈ freeipagroup.members.filter (fun m =>
        decide (m ∉ removedMembers
          (freeipa_group_mod idpgroup freeipagroup idp_users false).2)) ∨
      member ∈ addedMembers
        (freeipa_group_mod idpgroup freeipagroup idp_users false).2) ↔
      (member ∈ idpgroup.members ∨
        (member ∈ freeipagroup.members ∧
          dictContains idp_users member = false)) := by
  rw [removedMembers_group_mod _ _ _ h, addedMembers_group_mod _ _ _ h]
  simp only [List.mem_filter, decide_eq_true_eq, Bool.and_eq_true,
    Bool.not_eq_true]
  constructor
  · rintro (⟨hb, hnot⟩ | ⟨ha, hb⟩)
    · by_cases hA : member ∈ idpgroup.members
      · exact Or.inl hA
      · refine Or.inr ⟨hb, ?_⟩
        by_cases hC : dictContains idp_users member = true
        · exact absurd ⟨hb, hA, hC⟩ hnot
        · simpa using hC
    · exact Or.inl ha
  · rintro (hA | ⟨hB, hC⟩)
    · by_cases hB : member ∈ freeipagroup.members
      · exact Or.inl ⟨hB, fun hcon => hcon.2.1 hA⟩
      · exact Or.inr ⟨hA, hB⟩
    · exact Or.inl ⟨hB, fun hcon => by rw [hC] at hcon; exact absurd hcon.2.2 (by simp)⟩

/-- Witness for the amended C2 at the counterexample instance, at member
`carol`: the converged set contains `carol` exactly because `carol` is a
current member unknown to the desired users. -/
theorem c2_membership_delta_witness :
    ("carol" ∈ gcEx.members.filter (fun m =>
        decide (m ∉ removedMembers
          (freeipa_group_mod gdEx gcEx [] false).2)) ∨
      "carol" ∈ addedMembers (freeipa_group_mod gdEx gcEx [] false).2) ↔
      ("carol" ∈ gdEx.members ∨
        ("carol" ∈ gcEx.members ∧ dictContains ([] : Dict User) "carol" = false)) :=
  c2_membership_delta_amended gdEx gcEx [] (by decide) "carol"

theorem mem_joinList {c : MutCall} {ls : List (List MutCall)} :
    c ∈ joinList ls ↔ ∃ l ∈ ls, c ∈ l := by
  induction ls with
  | nil => simp [joinList]
  | cons a rest ih => simp [joinList, List.mem_append, ih]

theorem mem_modified_groups {idp_groups freeipa_groups : Dict Group}
    {g : Group} :
    g ∈ modified_groups idp_groups freeipa_groups ↔
      ∃ fgg, g ∈ dictValues idp_groups ∧
        dictLookup freeipa_groups g.name = some fgg ∧
        group_match g fgg = false := by
  simp only [modified_groups, List.mem_filterMap]
  constructor
  · rintro ⟨a, ha, hfa⟩
    cases hl : dictLookup freeipa_groups a.name with
    | none => rw [hl] at hfa; simp at hfa
    | some fgg =>
      rw [hl] at hfa
      by_cases hm : group_match a fgg
      · simp [hm] at hfa
      · have hm2 : group_match a fgg = false := by simpa using hm
        simp [hm2] at hfa
        subst hfa
        exact ⟨fgg, ha, hl, hm2⟩
  · rintro ⟨fgg, hv, hl, hm⟩
    exact ⟨g, hv, by rw [hl]; simp [hm]⟩

theorem group_mod_mem_calls (idpgroup freeipagroup : Group)
    (idp_users : Dict User) (n : String) (d : Option String) :
    MutCall.group_mod n d ∈
        (freeipa_group_mod idpgroup freeipagroup idp_users false).2 ↔
      (n = idpgroup.name ∧ d = idpgroup.description ∧
        idpgroup.description ≠ freeipagroup.description) := by
  unfold freeipa_group_mod
  by_cases hm : membersEq idpgroup.members freeipagroup.members <;>
    by_cases hd : idpgroup.description ≠ freeipagroup.description <;>
      simp [hm, hd]

/-- Claim C6: for a group present in both snapshots, a `group_mod`
description-mutation call is issued in a real run if and only if the desired
description differs from the current one; when only membership differs, no
description mutation call is made. -/
theorem c6_description_mod_iff (idp_groups freeipa_groups : Dict Group)
    (idp_users : Dict User) (n : String) (gd gc : Group)
    (hig : groupDictOk idp_groups) (hfg : groupDictOk freeipa_groups)
    (hd : dictLookup idp_groups n = some gd)
    (hc : dictLookup freeipa_groups n = some gc) :
    (∃ d, MutCall.group_mod n d ∈
        groupModCalls idp_groups freeipa_groups idp_users) ↔
      gd.description ≠ gc.description := by
  have hname : gd.name = n := hig.1 (n, gd) (dictLookup_eq_some_mem hd)
  constructor
  · rintro ⟨d, hmem⟩
    rw [groupModCalls, mem_joinList] at hmem
    obtain ⟨l, hl, hcl⟩ := hmem
    obtain ⟨g, hg, rfl⟩ := List.mem_map.mp hl
    cases hlk : dictLookup freeipa_groups g.name with
    | none => rw [hlk] at hcl; simp at hcl
    | some fgg =>
      rw [hlk] at hcl
      obtain ⟨rfl, rfl, hne⟩ := (group_mod_mem_calls g fgg idp_users _ _).mp hcl
      obtain ⟨k, hkg⟩ := mem_dictValues.mp (mem_modified_groups.mp hg).choose_spec.1
      have hkn : k = g.name := (hig.1 (k, g) hkg).symm
      subst hkn
      have : dictLookup idp_groups g.name = some g :=
        dictLookup_of_mem_nodup hig.2 hkg
      rw [this] at hd
      obtain rfl := Option.some.inj hd
      rw [hlk] at hc
      obtain rfl := Option.some.inj hc
      exact hne
  · intro hne
    refine ⟨gd.description, ?_⟩
    have hv : gd ∈ dictValues idp_groups :=
      mem_dictValues.mpr ⟨n, dictLookup_eq_some_mem hd⟩
    have hmatch : group_match gd gc = false := by
      simp [group_match, hne]
    have hmod : gd ∈ modified_groups idp_groups freeipa_groups :=
      mem_modified_groups.mpr ⟨gc, hv, by rw [hname]; exact hc, hmatch⟩
    rw [groupModCalls, mem_joinList]
    refine ⟨_, List.mem_map.mpr ⟨gd, hmod, rfl⟩, ?_⟩
    rw [hname, hc]
    exact (group_mod_mem_calls gd gc idp_users n gd.description).mpr
      ⟨hname.symm, rfl, hne⟩

/-- Witness for C6 at a concrete instance: the group `eng` present in both
snapshots with descriptions `a` (desired) and `b` (current) gets a
description-mutation call. -/
theorem c6_description_mod_iff_witness :
    (∃ d, MutCall.group_mod "eng" d ∈
        groupModCalls [("eng", ⟨"eng", some "a", []⟩)]
          [("eng", ⟨"eng", some "b", []⟩)] []) ↔
      (some "a" : Option String) ≠ some "b" :=
  c6_description_mod_iff [("eng", ⟨"eng", some "a", []⟩)]
    [("eng", ⟨"eng", some "b", []⟩)] [] "eng" ⟨"eng", some "a", []⟩
    ⟨"eng", some "b", []⟩ (by refine ⟨?_, ?_⟩ <;> decide)
    (by refine ⟨?_, ?_⟩ <;> decide) rfl rfl

theorem mem_usernames_not_in {list1 list2 : Dict User}
    (hk : ∀ p ∈ list1, (Prod.snd p).username = Prod.fst p) {n : String} :
    n ∈ (users_not_in list1 list2).map User.username ↔
      dictContains list1 n = true ∧ dictContains list2 n = false := by
  constructor
  · intro h
    obtain ⟨u, hu, rfl⟩ := List.mem_map.mp h
    obtain ⟨hval, hflt⟩ := List.mem_filter.mp hu
    obtain ⟨k, hk1⟩ := mem_dictValues.mp hval
    have hun : u.username = k := hk (k, u) hk1
    refine ⟨dictContains_iff.mpr ⟨u, hun ▸ hk1⟩, ?_⟩
    simpa using hflt
  · rintro ⟨hc1, hc2⟩
    obtain ⟨v, hv⟩ := dictContains_iff.mp hc1
    have hun : v.username = n := hk (n, v) hv
    refine List.mem_map.mpr ⟨v, List.mem_filter.mpr ⟨mem_dictValues.mpr ⟨n, hv⟩, ?_⟩, hun⟩
    rw [hun, hc2]
    rfl

theorem mem_usernames_modified {list1 list2 : Dict User}
    (h1 : userDictOk list1) {n : String} :
    n ∈ (modified_users list1 list2).map User.username ↔
      ∃ ud uc, dictLookup list1 n = some ud ∧ dictLookup list2 n = some uc ∧
        user_match ud uc = false := by
  constructor
  · intro h
    obtain ⟨u, hu, rfl⟩ := List.mem_map.mp h
    obtain ⟨a, ha, hfa⟩ := List.mem_filterMap.mp hu
    cases hl : dictLookup list2 a.username with
    | none => rw [hl] at hfa; simp at hfa
    | some uc =>
      rw [hl] at hfa
      by_cases hm : user_match a uc
      · simp [hm] at hfa
      · have hm2 : user_match a uc = false := by simpa using hm
        simp [hm2] at hfa
        subst hfa
        obtain ⟨k, hk1⟩ := mem_dictValues.mp ha
        have hun : a.username = k := h1.1 (k, a) hk1
        refine ⟨a, uc, ?_, hl, hm2⟩
        rw [hun]
        exact dictLookup_of_mem_nodup h1.2 (hun ▸ hk1)
  · rintro ⟨ud, uc, h1l, h2l, hm⟩
    have hmem : (n, ud) ∈ list1 := dictLookup_eq_some_mem h1l
    have hun : ud.username = n := h1.1 (n, ud) hmem
    refine List.mem_map.mpr ⟨ud, List.mem_filterMap.mpr ⟨ud,
      mem_dictValues.mpr ⟨n, hmem⟩, ?_⟩, hun⟩
    rw [hun, h2l]
    simp [hm]

/-- Claim C3: every username is classified consistently — it is in
UsersToAdd iff present only on the desired side, in UsersToDelete iff
present only on the current side, in UsersToModify iff present in both with
`user_match` failing — and no username ever appears in two of the three
lists (a username present in both with `user_match` holding is in none). -/
theorem c3_partition (idp_users freeipa_users : Dict User)
    (hiu : userDictOk idp_users) (hfu : userDictOk freeipa_users)
    (n : String) :
    ((n ∈ (users_not_in idp_users freeipa_users).map User.username ↔
        dictContains idp_users n = true ∧ dictContains freeipa_users n = false) ∧
      (n ∈ (users_not_in freeipa_users idp_users).map User.username ↔
        dictContains freeipa_users n = true ∧ dictContains idp_users n = false) ∧
      (n ∈ (modified_users idp_users freeipa_users).map User.username ↔
        ∃ ud uc, dictLookup idp_users n = some ud ∧
          dictLookup freeipa_users n = some uc ∧ user_match ud uc = false)) ∧
    ¬(n ∈ (users_not_in idp_users freeipa_users).map User.username ∧
        n ∈ (users_not_in freeipa_users idp_users).map User.username) ∧
    ¬(n ∈ (users_not_in idp_users freeipa_users).map User.username ∧
        n ∈ (modified_users idp_users freeipa_users).map User.username) ∧
    ¬(n ∈ (users_not_in freeipa_users idp_users).map User.username ∧
        n ∈ (modified_users idp_users freeipa_users).map User.username) := by
  have hA := @mem_usernames_not_in idp_users freeipa_users hiu.1 n
  have hD := @mem_usernames_not_in freeipa_users idp_users hfu.1 n
  have hM := @mem_usernames_modified idp_users freeipa_users hiu n
  refine ⟨⟨hA, hD, hM⟩, ?_, ?_, ?_⟩
  · rintro ⟨ha, hd⟩
    have h1 := (hA.mp ha).2
    have h2 := (hD.mp hd).1
    rw [h1] at h2
    exact Bool.false_ne_true h2
  · rintro ⟨ha, hm⟩
    have h1 := (hA.mp ha).2
    obtain ⟨ud, uc, _, h2l, _⟩ := hM.mp hm
    have : dictContains freeipa_users n = true := by
      simp [dictContains, h2l]
    rw [h1] at this
    exact Bool.false_ne_true this
  · rintro ⟨hd, hm⟩
    have h1 := (hD.mp hd).2
    obtain ⟨ud, uc, h1l, _, _⟩ := hM.mp hm
    have : dictContains idp_users n = true := by
      simp [dictContains, h1l]
    rw [h1] at this
    exact Bool.false_ne_true this

/-- Witness for C3 at a concrete instance: a single desired user `alice`
absent from the current snapshot. -/
theorem c3_partition_witness :
    ((("alice" : String) ∈ (users_not_in
          [("alice", ⟨"alice", "a", "a", "a", none, none, true, none, "idp", "i", "alice"⟩)]
          []).map User.username ↔
        dictContains
          [("alice", (⟨"alice", "a", "a", "a", none, none, true, none, "idp", "i", "alice"⟩ : User))]
          "alice" = true ∧ dictContains ([] : Dict User) "alice" = false) ∧
      (("alice" : String) ∈ (users_not_in []
          [("alice", ⟨"alice", "a", "a", "a", none, none, true, none, "idp", "i", "alice"⟩)]).map User.username ↔
        dictContains ([] : Dict User) "alice" = true ∧
          dictContains
            [("alice", (⟨"alice", "a", "a", "a", none, none, true, none, "idp", "i", "alice"⟩ : User))]
            "alice" = false) ∧
      (("alice" : String) ∈ (modified_users
          [("alice", ⟨"alice", "a", "a", "a", none, none, true, none, "idp", "i", "alice"⟩)]
          []).map User.username ↔
        ∃ ud uc, dictLookup
            [("alice", (⟨"alice", "a", "a", "a", none, none, true, none, "idp", "i", "alice"⟩ : User))]
            "alice" = some ud ∧
          dictLookup ([] : Dict User) "alice" = some uc ∧
          user_match ud uc = false)) ∧
    ¬(("alice" : String) ∈ (users_not_in
          [("alice", ⟨"alice", "a", "a", "a", none, none, true, none, "idp", "i", "alice"⟩)]
          []).map User.username ∧
      ("alice" : String) ∈ (users_not_in []
          [("alice", ⟨"alice", "a", "a", "a", none, none, true, none, "idp", "i", "alice"⟩)]).map User.username) ∧
    ¬(("alice" : String) ∈ (users_not_in
          [("alice", ⟨"alice", "a", "a", "a", none, none, true, none, "idp", "i", "alice"⟩)]
          []).map User.username ∧
      ("alice" : String) ∈ (modified_users
          [("alice", ⟨"alice", "a", "a", "a", none, none, true, none, "idp", "i", "alice"⟩)]
          []).map User.username) ∧
    ¬(("alice" : String) ∈ (users_not_in []
          [("alice", ⟨"alice", "a", "a", "a", none, none, true, none, "idp", "i", "alice"⟩)]).map User.username ∧
      ("alice" : String) ∈ (modified_users
          [("alice", ⟨"alice", "a", "a", "a", none, none, true, none, "idp", "i", "alice"⟩)]
          []).map User.username) :=
  c3_partition
    [("alice", ⟨"alice", "a", "a", "a", none, none, true, none, "idp", "i", "alice"⟩)]
    [] (by refine ⟨?_, ?_⟩ <;> decide) (by refine ⟨?_, ?_⟩ <;> decide) "alice"

theorem user_match_refl (u : User) : user_match u u = true := by
  unfold user_match
  rw [if_neg (not_not.mpr rfl), if_neg (not_not.mpr rfl),
    if_neg (not_not.mpr rfl), if_neg (fun hc => hc.2 rfl),
    if_neg (not_not.mpr rfl), if_neg (not_not.mpr rfl),
    if_neg (not_not.mpr rfl), if_neg (not_not.mpr rfl),
    if_neg (fun hc => hc.2 rfl), if_neg (fun hc => hc.2 rfl)]

theorem membersEq_refl (l : List String) : membersEq l l = true := by
  simp [membersEq, List.all_eq_true]

theorem group_match_refl (g : Group) : group_match g g = true := by
  simp [group_match, membersEq_refl]

theorem users_not_in_self {d : Dict User}
    (hk : ∀ p ∈ d, (Prod.snd p).username = Prod.fst p) :
    users_not_in d d = [] := by
  rw [users_not_in, List.filter_eq_nil_iff]
  intro u hu
  obtain ⟨k, hk1⟩ := mem_dictValues.mp hu
  have hun : u.username = k := hk (k, u) hk1
  have : dictContains d u.username = true :=
    dictContains_iff.mpr ⟨u, hun ▸ hk1⟩
  simp [this]

theorem groups_not_in_self {d : Dict Group}
    (hk : ∀ p ∈ d, (Prod.snd p).name = Prod.fst p) :
    groups_not_in d d = [] := by
  rw [groups_not_in, List.filter_eq_nil_iff]
  intro g hg
  obtain ⟨k, hk1⟩ := mem_dictValues.mp hg
  have hun : g.name = k := hk (k, g) hk1
  have : dictContains d g.name = true :=
    dictContains_iff.mpr ⟨g, hun ▸ hk1⟩
  simp [this]

theorem modified_users_self {d : Dict User} (h : userDictOk d) :
    modified_users d d = [] := by
  rw [modified_users, List.filterMap_eq_nil_iff]
  intro u hu
  obtain ⟨k, hk1⟩ := mem_dictValues.mp hu
  have hun : u.username = k := h.1 (k, u) hk1
  have hl : dictLookup d u.username = some u := by
    rw [hun]
    exact dictLookup_of_mem_nodup h.2 (hun ▸ hk1)
  rw [hl]
  simp [user_match_refl]

theorem modified_groups_self {d : Dict Group} (h : groupDictOk d) :
    modified_groups d d = [] := by
  rw [modified_groups, List.filterMap_eq_nil_iff]
  intro g hg
  obtain ⟨k, hk1⟩ := mem_dictValues.mp hg
  have hun : g.name = k := h.1 (k, g) hk1
  have hl : dictLookup d g.name = some g := by
    rw [hun]
    exact dictLookup_of_mem_nodup h.2 (hun ▸ hk1)
  rw [hl]
  simp [group_match_refl]

/-- Claim C5: the diff computation is deterministic (equal inputs give
equal action lists) and idempotent: diffing a snapshot against itself
yields all six action lists empty. -/
theorem c5_diff_idempotent (idp_users freeipa_users : Dict User)
    (idp_groups freeipa_groups : Dict Group)
    (hiu : userDictOk idp_users) (hig : groupDictOk idp_groups) :
    diff idp_users freeipa_users idp_groups freeipa_groups =
        diff idp_users freeipa_users idp_groups freeipa_groups ∧
      diff idp_users idp_users idp_groups idp_groups =
        ⟨[], [], [], [], [], []⟩ := by
  refine ⟨rfl, ?_⟩
  unfold diff
  rw [users_not_in_self hiu.1, groups_not_in_self hig.1,
    modified_users_self hiu, modified_groups_self hig]

/-- Witness for C5 at a concrete snapshot with one user and one group. -/
theorem c5_diff_idempotent_witness :
    diff
        [("alice", ⟨"alice", "a", "a", "a", none, none, true, none, "idp", "i", "alice"⟩)]
        [("alice", ⟨"alice", "a", "a", "a", none, none, true, none, "idp", "i", "alice"⟩)]
        [("eng", ⟨"eng", none, ["alice"]⟩)] [("eng", ⟨"eng", none, ["alice"]⟩)] =
      diff
        [("alice", ⟨"alice", "a", "a", "a", none, none, true, none, "idp", "i", "alice"⟩)]
        [("alice", ⟨"alice", "a", "a", "a", none, none, true, none, "idp", "i", "alice"⟩)]
        [("eng", ⟨"eng", none, ["alice"]⟩)] [("eng", ⟨"eng", none, ["alice"]⟩)] ∧
    diff
        [("alice", ⟨"alice", "a", "a", "a", none, none, true, none, "idp", "i", "alice"⟩)]
        [("alice", ⟨"alice", "a", "a", "a", none, none, true, none, "idp", "i", "alice"⟩)]
        [("eng", ⟨"eng", none, ["alice"]⟩)] [("eng", ⟨"eng", none, ["alice"]⟩)] =
      ⟨[], [], [], [], [], []⟩ :=
  c5_diff_idempotent
    [("alice", ⟨"alice", "a", "a", "a", none, none, true, none, "idp", "i", "alice"⟩)]
    [("alice", ⟨"alice", "a", "a", "a", none, none, true, none, "idp", "i", "alice"⟩)]
    [("eng", ⟨"eng", none, ["alice"]⟩)] [("eng", ⟨"eng", none, ["alice"]⟩)]
    (by refine ⟨?_, ?_⟩ <;> decide) (by refine ⟨?_, ?_⟩ <;> decide)

theorem syncPhase_calls (header : String)
    (ps : List (List String × List MutCall)) :
    (syncPhase header ps).2 = joinCalls ps := by
  unfold syncPhase
  split
  · rfl
  · rename_i h
    have : ps = [] := by
      rcases ps with _ | ⟨a, rest⟩
      · rfl
      · simp at h
    subst this
    rfl

theorem joinCalls_map_snd {α : Type} (f : α → List String × List MutCall)
    (l : List α) :
    joinCalls (l.map f) = joinList (l.map (fun x => (f x).2)) := by
  induction l with
  | nil => rfl
  | cons a rest ih => simp [joinCalls, joinList, ih]

theorem joinCalls_user_add (l : List User) :
    joinCalls (l.map (fun user => freeipa_user_add user false)) =
      l.map MutCall.user_add := by
  induction l with
  | nil => rfl
  | cons a rest ih =>
    simp only [List.map_cons, joinCalls, ih]
    rfl

theorem joinCalls_user_del (l : List User) :
    joinCalls (l.map (fun user => freeipa_user_del user false)) =
      l.map (fun user => MutCall.user_del user.username false) := by
  induction l with
  | nil => rfl
  | cons a rest ih =>
    simp only [List.map_cons, joinCalls, ih]
    rfl

theorem joinCalls_user_mod (l : List User) :
    joinCalls (l.map (fun user => freeipa_user_mod user false)) =
      l.map MutCall.user_mod := by
  induction l with
  | nil => rfl
  | cons a rest ih =>
    simp only [List.map_cons, joinCalls, ih]
    rfl

theorem joinCalls_group_del (l : List Group) :
    joinCalls (l.map (fun group => freeipa_group_del group false)) =
      l.map (fun group => MutCall.group_del group.name) := by
  induction l with
  | nil => rfl
  | cons a rest ih =>
    simp only [List.map_cons, joinCalls, ih]
    rfl

theorem joinCalls_group_add (l : List Group) :
    joinCalls (l.map (fun group => freeipa_group_add group false)) =
      joinList (l.map (fun group =>
        MutCall.group_add group.name group.description ::
          group.members.map (fun member =>
            MutCall.group_add_member group.name member))) := by
  induction l with
  | nil => rfl
  | cons a rest ih =>
    simp only [List.map_cons, joinCalls, joinList, ih]
    rfl

theorem mapExcept_ok {α β : Type} (f : α → Except String β) (g : α → β)
    (l : List α) (h : ∀ a ∈ l, f a = Except.ok (g a)) :
    mapExcept f l = Except.ok (l.map g) := by
  induction l with
  | nil => rfl
  | cons a rest ih =>
    rw [List.map_cons, mapExcept, h a (List.mem_cons_self a rest),
      ih (fun x hx => h x (List.mem_cons_of_mem a hx))]

theorem sync_group_phase (idp_groups freeipa_groups : Dict Group)
    (idp_users : Dict User) :
    joinCalls ((modified_groups idp_groups freeipa_groups).map (fun group =>
        match dictLookup freeipa_groups group.name with
        | some freeipagroup =>
            freeipa_group_mod group freeipagroup idp_users false
        | none => ([], []))) =
      groupModCalls idp_groups freeipa_groups idp_users := by
  unfold groupModCalls
  rw [joinCalls_map_snd]
  refine congrArg joinList (List.map_congr_left fun a _ => ?_)
  cases dictLookup freeipa_groups a.name <;> rfl

/-- Counterexample to claim C8: with one user to delete (`bob`, present
only in FreeIPA) and one group to add (`eng`, present only in the IDP),
the real-run call sequence is `user_del bob` **then** `group_add eng`: a
delete action precedes an add action, contradicting the claimed order
(all adds, then all deletes, then all modifications). -/
theorem c8_counterexample :
    sync [] [("bob", ⟨"bob", "b", "b", "b", none, none, true, none, "password", "", ""⟩)]
        [("eng", ⟨"eng", none, []⟩)] [] false =
      Except.ok ([" * Deleting 1 users", "   * Deleting User bob",
          " * Adding 1 new groups", "   * Adding Group eng", "Sync Complete"],
        [MutCall.user_del "bob" false, MutCall.group_add "eng" none]) := rfl

/-- Claim C8 as amended: the apply phase executes the six action categories
in the fixed source order — all user adds, then all user deletes, then all
group adds (with their memberships), then all group deletes, then all user
modifications, then all group modifications — so user adds precede user
deletes, which precede group adds. -/
theorem c8_apply_order_amended (idp_users freeipa_users : Dict User)
    (idp_groups freeipa_groups : Dict Group) :
    ∃ out, sync idp_users freeipa_users idp_groups freeipa_groups false =
      Except.ok (out,
        userAddCalls idp_users freeipa_users ++
          userDelCalls freeipa_users idp_users ++
          groupAddCalls idp_groups freeipa_groups ++
          groupDelCalls freeipa_groups idp_groups ++
          userModCalls idp_users freeipa_users ++
          groupModCalls idp_groups freeipa_groups idp_users) := by
  have hmap : mapExcept (fun group =>
      match dictLookup freeipa_groups group.name with
      | some freeipagroup =>
          Except.ok (freeipa_group_mod group freeipagroup idp_users false)
      | none => Except.error ("KeyError: " ++ group.name))
      (modified_groups idp_groups freeipa_groups) =
      Except.ok ((modified_groups idp_groups freeipa_groups).map (fun group =>
        match dictLookup freeipa_groups group.name with
        | some freeipagroup =>
            freeipa_group_mod group freeipagroup idp_users false
        | none => ([], []))) := by
    refine mapExcept_ok _ _ _ (fun a ha => ?_)
    obtain ⟨fgg, _, hl, _⟩ := mem_modified_groups.mp ha
    rw [hl]
  unfold sync
  dsimp only
  rw [hmap]
  dsimp only
  refine ⟨_, congrArg Except.ok (Prod.ext rfl ?_)⟩
  rw [syncPhase_calls, syncPhase_calls, syncPhase_calls, syncPhase_calls,
    syncPhase_calls, syncPhase_calls, joinCalls_user_add, joinCalls_user_del,
    joinCalls_group_add, joinCalls_group_del, joinCalls_user_mod,
    sync_group_phase]
  rfl

theorem dictKeys_insert_of_not_contains {α : Type} {d : Dict α} {k : String}
    (v : α) (h : dictContains d k = false) :
    dictKeys (dictInsert d k v) = dictKeys d ++ [k] := by
  induction d with
  | nil => rfl
  | cons p rest ih =>
    obtain ⟨k', v'⟩ := p
    have hk : ¬k' = k := by
      intro hkk
      subst hkk
      simp [dictContains, dictLookup] at h
    simp only [dictContains, dictLookup, hk, if_false] at h
    simp only [dictInsert, hk, if_false, dictKeys, List.map_cons,
      List.cons_append]
    exact congrArg (k' :: ·) (ih h)

theorem ldap_users_loop_nodup (cfg : LdapConfig) :
    ∀ (rows : List Attrs) (acc users : Dict User),
      (dictKeys acc).Nodup →
      ldap_users_loop cfg rows acc = Except.ok users →
      (dictKeys users).Nodup := by
  intro rows
  induction rows with
  | nil =>
    intro acc users hnd h
    obtain rfl := Except.ok.inj h
    exact hnd
  | cons attr rest ih =>
    intro acc users hnd h
    rw [ldap_users_loop] at h
    cases hrow : ldap_row_user cfg attr with
    | error e => rw [hrow] at h; exact absurd h (by simp)
    | ok o =>
      rw [hrow] at h
      cases o with
      | none => exact ih acc users hnd h
      | some user =>
        dsimp only at h
        by_cases hc : dictContains acc user.username = true
        · rw [if_pos hc] at h
          exact absurd h (by simp)
        · have hcf : dictContains acc user.username = false := by
            simpa using hc
          rw [if_neg (by simp [hcf])] at h
          refine ih _ users ?_ h
          rw [dictKeys_insert_of_not_contains user hcf]
          rw [List.nodup_append]
          refine ⟨hnd, List.nodup_singleton _, ?_⟩
          intro a ha hmem
          simp only [List.mem_singleton] at hmem
          subst hmem
          exact (dictContains_eq_false_iff.mp hcf) ha

/-- The LDAP configuration of the concrete loader scenarios. -/
def cfgEx : LdapConfig :=
  { attr_username := "uid"
    attr_fname := "givenName"
    attr_lname := "sn"
    attr_name := "cn"
    attr_email := none
    attr_uid := none
    attr_shell := none
    attr_active := "status"
    attr_group_members := "member"
    attr_group_name := "cn"
    attr_group_description := some "description"
    ignore_users := []
    ignore_groups := []
    active_values := ["active"]
    idp_name := "myidp" }

/-- A concrete LDAP user row: `alice@example.com`, active. -/
def urowAlice : Attrs :=
  [("uid", ["alice@example.com"]), ("givenName", ["Alice"]), ("sn", ["A"]),
   ("cn", ["Alice A"]), ("status", ["active"])]

/-- The `User` the loader builds from `urowAlice`. -/
def userAliceEx : User :=
  { username := "alice"
    name := "Alice A"
    fname := "Alice"
    lname := "A"
    shell := none
    uid := none
    active := true
    email := none
    auth_type := "idp"
    idp_name := "myidp"
    idp_username := "alice@example.com" }

/-- A concrete LDAP group row named `eng`, description `first`. -/
def growA : Attrs :=
  [("uniqueIdentifier", ["g1"]), ("cn", ["eng"]), ("description", ["first"])]

/-- A second concrete LDAP group row with the same name `eng`, description
`second`. -/
def growB : Attrs :=
  [("uniqueIdentifier", ["g2"]), ("cn", ["eng"]), ("description", ["second"])]

/-- A concrete LDAP group row for `eng` whose member values reference
`alice` (in email form) and a stale username `stale`. -/
def growM : Attrs :=
  [("uniqueIdentifier", ["g1"]), ("cn", ["eng"]),
   ("member", ["cn=alice@example.com,ou=x", "cn=stale,ou=x"])]

/-- Counterexample to claim C7: a loader input with two group rows sharing
the group name `eng` does not raise; `fetch_ldap` returns a snapshot in
which the later group silently replaced the earlier one. -/
theorem c7_counterexample :
    fetch_ldap cfgEx [] [growA, growB] =
      Except.ok ([], [("eng", ⟨"eng", some "second", []⟩)]) := rfl

/-- Claim C7 as amended: two users sharing a username within one snapshot
are a fatal error (so a successfully constructed user mapping always has
pairwise-distinct keys, and a concrete duplicate-username input raises
`Duplicate user`), but two groups sharing a group name are **not** an
error: the later group silently replaces the earlier one. -/
theorem c7_duplicate_keys_amended :
    (∀ (cfg : LdapConfig) (rows : List Attrs) (users : Dict User),
        ldap_users_loop cfg rows [] = Except.ok users →
        (dictKeys users).Nodup) ∧
    fetch_ldap cfgEx [urowAlice, urowAlice] [] =
        Except.error "Duplicate user alice" ∧
    fetch_ldap cfgEx [] [growA, growB] =
        Except.ok ([], [("eng", ⟨"eng", some "second", []⟩)]) :=
  ⟨fun cfg rows users h =>
      ldap_users_loop_nodup cfg rows [] users List.nodup_nil h,
   rfl, rfl⟩

/-- Witness for the amended C7: loading the single row `urowAlice` succeeds
and the resulting user mapping has distinct keys. -/
theorem c7_duplicate_keys_witness :
    (dictKeys [("alice", userAliceEx)]).Nodup :=
  c7_duplicate_keys_amended.1 cfgEx [urowAlice] [("alice", userAliceEx)] rfl

theorem ldap_parse_member_some {cfg : LdapConfig} {users : Dict User}
    {member u : String}
    (h : ldap_parse_member cfg users member = Except.ok (some u)) :
    dictContains users u = true := by
  unfold ldap_parse_member at h
  dsimp only at h
  cases hm : (pySplit ((pySplit member ',').headD "") '=').get? 1 with
  | none => rw [hm] at h; exact absurd h (by simp)
  | some value =>
    rw [hm] at h
    dsimp only at h
    split_ifs at h with h1 h2
    · exact absurd h (by simp)
    · obtain rfl := Option.some.inj (Except.ok.inj h)
      exact h2
    · exact absurd h (by simp)

theorem ldap_members_loop_contains (cfg : LdapConfig) (users : Dict User) :
    ∀ (raw acc members : List String),
      (∀ m ∈ acc, dictContains users m = true) →
      ldap_members_loop cfg users raw acc = Except.ok members →
      ∀ m ∈ members, dictContains users m = true := by
  intro raw
  induction raw with
  | nil =>
    intro acc members hacc h
    obtain rfl := Except.ok.inj h
    exact hacc
  | cons x rest ih =>
    intro acc members hacc h
    rw [ldap_members_loop] at h
    cases hp : ldap_parse_member cfg users x with
    | error e => rw [hp] at h; exact absurd h (by simp)
    | ok o =>
      rw [hp] at h
      cases o with
      | none => exact ih acc members hacc h
      | some username =>
        refine ih _ members ?_ h
        intro m hm
        by_cases hmem : username ∈ acc
        · rw [if_pos hmem] at hm
          exact hacc m hm
        · rw [if_neg hmem] at hm
          rcases List.mem_append.mp hm with hm | hm
          · exact hacc m hm
          · simp only [List.mem_singleton] at hm
            subst hm
            exact ldap_parse_member_some hp

theorem ldap_row_group_contains {cfg : LdapConfig} {users : Dict User}
    {attr : Attrs} {g : Group}
    (h : ldap_row_group cfg users attr = Except.ok (some g)) :
    ∀ m ∈ g.members, dictContains users m = true := by
  unfold ldap_row_group at h
  dsimp only at h
  cases hmem : (if (match dictLookup attr cfg.attr_group_members with
      | some l => l
      | none => []).isEmpty then Except.ok []
    else ldap_members_loop cfg users
      (match dictLookup attr cfg.attr_group_members with
        | some l => l
        | none => []) []) with
  | error e => rw [hmem] at h; exact absurd h (by simp)
  | ok members =>
    have hmemok : ∀ m ∈ members, dictContains users m = true := by
      rcases hsplit : (match dictLookup attr cfg.attr_group_members with
          | some l => l
          | none => []).isEmpty with _ | _
      · rw [if_neg (by simp [hsplit])] at hmem
        exact ldap_members_loop_contains cfg users _ [] members
          (by intro m hm; exact absurd hm (List.not_mem_nil m)) hmem
      · rw [if_pos (by simp [hsplit])] at hmem
        obtain rfl := Except.ok.inj hmem
        intro m hm
        exact absurd hm (List.not_mem_nil m)
    rw [hmem] at h
    dsimp only at h
    cases hname : fetch_required_string attr cfg.attr_group_name with
    | error e => rw [hname] at h; exact absurd h (by simp)
    | ok name =>
      rw [hname] at h
      dsimp only at h
      split_ifs at h with hig
      · exact absurd h (by simp)
      · obtain rfl := Option.some.inj (Except.ok.inj h)
        exact hmemok

theorem mem_dictValues_insert {α : Type} {d : Dict α} {k : String} {v x : α}
    (h : x ∈ dictValues (dictInsert d k v)) : x = v ∨ x ∈ dictValues d := by
  induction d with
  | nil =>
    simp [dictInsert, dictValues] at h
    exact Or.inl h
  | cons p rest ih =>
    obtain ⟨k', v'⟩ := p
    by_cases hk : k' = k
    · subst hk
      simp only [dictInsert, if_pos rfl, dictValues, List.map_cons] at h
      rcases List.mem_cons.mp h with rfl | h
      · exact Or.inl rfl
      · exact Or.inr (List.mem_cons_of_mem _ h)
    · simp only [dictInsert, hk, if_false, dictValues, List.map_cons] at h
      rcases List.mem_cons.mp h with rfl | h
      · exact Or.inr (List.mem_cons_self _ _)
      · rcases ih h with h | h
        · exact Or.inl h
        · exact Or.inr (List.mem_cons_of_mem _ h)

theorem ldap_groups_loop_inv (cfg : LdapConfig) (users : Dict User) :
    ∀ (rows : List Attrs) (acc groups : Dict Group),
      (∀ g ∈ dictValues acc, ∀ m ∈ g.members, dictContains users m = true) →
      ldap_groups_loop cfg users rows acc = Except.ok groups →
      ∀ g ∈ dictValues groups, ∀ m ∈ g.members, dictContains users m = true := by
  intro rows
  induction rows with
  | nil =>
    intro acc groups hacc h
    obtain rfl := Except.ok.inj h
    exact hacc
  | cons attr rest ih =>
    intro acc groups hacc h
    rw [ldap_groups_loop] at h
    split_ifs at h with hskip
    · exact ih acc groups hacc h
    · cases hrow : ldap_row_group cfg users attr with
      | error e => rw [hrow] at h; exact absurd h (by simp)
      | ok o =>
        rw [hrow] at h
        cases o with
        | none => exact ih acc groups hacc h
        | some group =>
          refine ih _ groups ?_ h
          intro g hg
          rcases mem_dictValues_insert hg with rfl | hg
          · exact ldap_row_group_contains hrow
          · exact hacc g hg

/-- Claim C10: every snapshot the LDAP loader returns satisfies referential
integrity on the desired side — every member of every returned group is a
key of the returned user mapping (ignored, stale, and unknown member
references are dropped before the `Group` is constructed). -/
theorem c10_referential_integrity (cfg : LdapConfig)
    (user_rows group_rows : List Attrs) (users : Dict User)
    (groups : Dict Group)
    (h : fetch_ldap cfg user_rows group_rows = Except.ok (users, groups)) :
    ∀ g ∈ dictValues groups, ∀ m ∈ g.members, dictContains users m = true := by
  unfold fetch_ldap at h
  cases hu : ldap_users_loop cfg user_rows [] with
  | error e => rw [hu] at h; exact absurd h (by simp)
  | ok users0 =>
    rw [hu] at h
    dsimp only at h
    cases hg : ldap_groups_loop cfg users0 group_rows [] with
    | error e => rw [hg] at h; exact absurd h (by simp)
    | ok groups0 =>
      rw [hg] at h
      dsimp only at h
      obtain hpair := Except.ok.inj h
      have h1 : users0 = users := congrArg Prod.fst hpair
      have h2 : groups0 = groups := congrArg Prod.snd hpair
      subst h1
      subst h2
      exact ldap_groups_loop_inv cfg users0 group_rows [] groups0
        (by intro g hg2; exact absurd hg2 (List.not_mem_nil g)) hg

/-- Witness for C10: the concrete load of `urowAlice` and `growM` returns
group `eng` with single member `alice`, and `alice` is indeed a key of the
returned user mapping. -/
theorem c10_referential_integrity_witness :
    dictContains [("alice", userAliceEx)] "alice" = true :=
  c10_referential_integrity cfgEx [urowAlice] [growM]
    [("alice", userAliceEx)] [("eng", ⟨"eng", none, ["alice"]⟩)] rfl
    ⟨"eng", none, ["alice"]⟩ (by decide) "alice" (by decide)

end Idpsync
